import Mathlib

/-!
# base-api-client-go: the streaming ingestion and decoding pipeline

A shallow embedding of `main.go`: the payload decoder `ParseFlashBlockByte`,
the transaction decoder `DecodeTransactions`, the printer `printPretty` and the
three consumer loops `GetBlockStream`, `GetFlashBlockStream` and
`GetWebSocketFlashBlockStream`.

Collaborators that live outside the repository (the brotli reader, the
go-ethereum transaction decoder, the gRPC and WebSocket transports) are
parameters of the definitions.  Go's `encoding/json` is modelled at the level
that the source fixes through the Go types it decodes into.
-/

namespace BaseApiClient

/-! ## Go values shared by every function -/

/-- A Go byte.  No arithmetic is done on bytes in `main.go`. -/
abbrev Byte := Nat

/-- A Go `string`: an immutable sequence of bytes. -/
abbrev GoString := List Byte

/-- A non-nil Go `error`.  `main.go` distinguishes `io.EOF` from every other
error (`err == io.EOF`); other errors are told apart by a code. -/
inductive GoError where
  | EOF
  | other (code : Nat)
  deriving DecidableEq, Repr

/-- A Go `error` value: `none` is `nil`. -/
abbrev GoErr := Option GoError

/-! ## The brotli reader and `bytes.Buffer.ReadFrom` -/

/-- The behaviour of one `io.Reader` (here `brotli.NewReader(bytes.NewReader(data))`)
under repeated `Read` calls: the chunks returned by the calls that gave a nil
error, then the first call that gave a non-nil error together with the bytes it
returned alongside.  The reader is drained by a single consumer, so this
sequence is all that `main.go` can observe of it.  A reader that never returns
a non-nil error, on which `ReadFrom` would not return, is not represented. -/
structure Reader where
  reads : List (List Byte)
  lastChunk : List Byte
  lastErr : GoError
  deriving DecidableEq, Repr

/-- Every byte the reader produces before it stops, in order. -/
def Reader.output (r : Reader) : List Byte :=
  r.reads.flatten ++ r.lastChunk

/-- The loop of `bytes.Buffer.ReadFrom`: append what each `Read` returns to the
buffer; `io.EOF` ends the loop with a nil error, any other error ends it with
that error.  Returns the buffer contents and the error. -/
def ReadFromLoop (buf : List Byte) (lastChunk : List Byte) (lastErr : GoError) :
    List (List Byte) → List Byte × GoErr
  | [] =>
    let buf1 := buf ++ lastChunk
    if lastErr = GoError.EOF then (buf1, none) else (buf1, some lastErr)
  | m :: rest => ReadFromLoop (buf ++ m) lastChunk lastErr rest

/-- Go's `buf.ReadFrom(br)` on a buffer holding `buf`. -/
def ReadFrom (buf : List Byte) (br : Reader) : List Byte × GoErr :=
  ReadFromLoop buf br.lastChunk br.lastErr br.reads

/-- Go's `ParseFlashBlockByte` (main.go 240-248).  `NewReader data` stands for
`brotli.NewReader(bytes.NewReader(data))`. -/
def ParseFlashBlockByte (NewReader : List Byte → Reader) (data : List Byte) :
    GoString × GoErr :=
  let br := NewReader data
  let (buf, err) := ReadFrom [] br
  match err with
  | some e => ([], some e)
  | none => (buf, none)

/-! ## `encoding/json`: documents and the Go values they decode into -/

/-- A syntactically valid JSON document, as `encoding/json` tokenises it:
string escapes are resolved, number literals are kept as written, object
members are kept in document order (duplicates included). -/
inductive JSON where
  | null
  | bool (b : Bool)
  | number (lit : GoString)
  | string (s : GoString)
  | array (elems : List JSON)
  | object (members : List (GoString × JSON))
  deriving Repr

/-- What `encoding/json` stores in an `interface{}`: `nil`, `bool`, `float64`,
`string`, `[]interface{}` or `map[string]interface{}`.  `F` is the type of
`float64` values.  A map is kept as an association list with strictly
increasing keys, so that equal Go maps are equal values. -/
inductive GoVal (F : Type) where
  | nil
  | bool (b : Bool)
  | float64 (f : F)
  | string (s : GoString)
  | slice (elems : List (GoVal F))
  | map (m : List (GoString × GoVal F))
  deriving Repr

/-- A Go `map[string]interface{}`; `none` is the nil map. -/
abbrev GoMap (F : Type) := Option (List (GoString × GoVal F))

/-- The Go statement `m[k] = v` on a map kept with strictly increasing keys. -/
def mapSet {V : Type} (k : GoString) (v : V) : List (GoString × V) → List (GoString × V)
  | [] => [(k, v)]
  | (k1, v1) :: rest =>
    if k = k1 then (k, v) :: rest
    else if k < k1 then (k, v) :: (k1, v1) :: rest
    else (k1, v1) :: mapSet k v rest

/-- The error `*json.UnmarshalTypeError`: a JSON value that does not fit the Go
type it is decoded into (also a number outside the range of `float64`). -/
def UnmarshalTypeError : GoError := GoError.other 1

mutual
/-- Decoding of a JSON value into an `interface{}` (`valueInterface`): `none`
when some number in it cannot be converted to a `float64`. -/
def decodeAny {F : Type} (ParseFloat : GoString → Option F) : JSON → Option (GoVal F)
  | JSON.null => some GoVal.nil
  | JSON.bool b => some (GoVal.bool b)
  | JSON.number lit => (ParseFloat lit).map GoVal.float64
  | JSON.string s => some (GoVal.string s)
  | JSON.array elems => (decodeElems ParseFloat elems).map GoVal.slice
  | JSON.object members => (decodeMembers ParseFloat members []).map GoVal.map
/-- Decoding of the elements of a JSON array, in order (`arrayInterface`). -/
def decodeElems {F : Type} (ParseFloat : GoString → Option F) : List JSON → Option (List (GoVal F))
  | [] => some []
  | j :: rest =>
    match decodeAny ParseFloat j, decodeElems ParseFloat rest with
    | some v, some vs => some (v :: vs)
    | _, _ => none
/-- Decoding of the members of a JSON object into the map `acc`, in document
order, each member executing `m[key] = value` (`objectInterface`). -/
def decodeMembers {F : Type} (ParseFloat : GoString → Option F) :
    List (GoString × JSON) → List (GoString × GoVal F) → Option (List (GoString × GoVal F))
  | [], acc => some acc
  | (k, j) :: rest, acc =>
    match decodeAny ParseFloat j with
    | some v => decodeMembers ParseFloat rest (mapSet k v acc)
    | none => none
end

/-- Decoding of a JSON value into a nil `map[string]interface{}` variable: an
object fills a fresh map, `null` leaves the nil map, every other value is an
`UnmarshalTypeError`. -/
def decodeMap {F : Type} (ParseFloat : GoString → Option F) : JSON → Except GoError (GoMap F)
  | JSON.object members =>
    match decodeMembers ParseFloat members [] with
    | some m => Except.ok (some m)
    | none => Except.error UnmarshalTypeError
  | JSON.null => Except.ok none
  | _ => Except.error UnmarshalTypeError

mutual
/-- The JSON value `json.Marshal` writes for an `interface{}`: map members in
increasing key order, `float64` values through `FormatFloat`. -/
def encodeAny {F : Type} (FormatFloat : F → GoString) : GoVal F → JSON
  | GoVal.nil => JSON.null
  | GoVal.bool b => JSON.bool b
  | GoVal.float64 f => JSON.number (FormatFloat f)
  | GoVal.string s => JSON.string s
  | GoVal.slice elems => JSON.array (encodeElems FormatFloat elems)
  | GoVal.map m => JSON.object (encodeMembers FormatFloat m)
/-- The JSON values written for the elements of a slice. -/
def encodeElems {F : Type} (FormatFloat : F → GoString) : List (GoVal F) → List JSON
  | [] => []
  | v :: rest => encodeAny FormatFloat v :: encodeElems FormatFloat rest
/-- The JSON members written for the entries of a map. -/
def encodeMembers {F : Type} (FormatFloat : F → GoString) :
    List (GoString × GoVal F) → List (GoString × JSON)
  | [] => []
  | (k, v) :: rest => (k, encodeAny FormatFloat v) :: encodeMembers FormatFloat rest
end

/-- Go's `FlashBlockWebSocketResponse` (main.go 172-175). -/
structure FlashBlockWebSocketResponse where
  JsonRPC : GoString
  Result : List Byte
  deriving DecidableEq, Repr

/-- The libraries `main.go` calls.  `F` is the type of `float64` values, `Tx`
the type of go-ethereum's `types.Transaction`.
* `NewReader data` is `brotli.NewReader(bytes.NewReader(data))`;
* `Scan text` is the syntax check and tokenising of `encoding/json`: the
  document, or the syntax error;
* `ParseFloat` is the conversion of a number literal to `float64`, `none` when
  it is out of range;
* `MarshalIndent m` is `json.MarshalIndent(m, "", "  ")`;
* `UnmarshalEnvelope msg` is `json.Unmarshal(msg, &outer)` for
  `outer *FlashBlockWebSocketResponse` pointing to a fresh struct: the error,
  or the value `outer` points to afterwards, `none` when `outer` has been set
  to nil (which `encoding/json` does for the document `null`);
* `UnmarshalBinary` is `(*types.Transaction).UnmarshalBinary` on a fresh
  transaction, `Hash` is `(*types.Transaction).Hash`. -/
structure Libs (F Tx : Type) where
  NewReader : List Byte → Reader
  Scan : List Byte → Except GoError JSON
  ParseFloat : GoString → Option F
  MarshalIndent : GoMap F → List Byte × GoErr
  UnmarshalEnvelope : List Byte → Except GoError (Option FlashBlockWebSocketResponse)
  UnmarshalBinary : List Byte → Except GoError Tx
  Hash : Tx → GoString

/-- Go's `json.Unmarshal(text, &m)` for `var m map[string]interface{}`
(main.go 139-140 and 273-274): the map, or the error. -/
def jsonUnmarshalMap {F Tx : Type} (ext : Libs F Tx) (text : List Byte) :
    Except GoError (GoMap F) :=
  match ext.Scan text with
  | Except.error e => Except.error e
  | Except.ok j => decodeMap ext.ParseFloat j

/-! ## Log output -/

/-- The argument of `printPretty`, an `interface{}`: `main.go` passes either a
`string` or a `map[string]interface{}`. -/
inductive PrettyArg (F : Type) where
  | str (s : GoString)
  | val (m : GoMap F)
  deriving Repr

/-- One line written through the `log` package, named after the call that
writes it.  `pretty` is the `log.Println(string(out))` of `printPretty`, the
sink of the decoded records; every other line is a status or error report. -/
inductive LogLine (F : Type) where
  | blockConnecting
  | blockDialFailed (e : GoError)
  | blockConnected
  | blockSubscribeFailed (e : GoError)
  | blockSubscribed
  | blockEOF
  | blockRecvError (e : GoError)
  | blockReceived (number : Nat) (hash : GoString) (txCount : Nat)
  | flashConnecting
  | flashDialFailed (e : GoError)
  | flashConnected
  | flashSubscribeFailed (e : GoError)
  | flashSubscribed
  | flashEOF
  | flashRecvError (e : GoError)
  | flashParseFailed (e : GoError)
  | flashUnmarshalFailed (e : GoError)
  | wsDialFailed (e : GoError)
  | wsConnected
  | wsSendFailed (e : GoError)
  | wsRequestSent
  | wsReadError (e : GoError)
  | wsParseFailed (e : GoError) (msg : List Byte)
  | wsNoValidResult (msg : List Byte)
  | decodeTxError (e : GoError)
  | decodeTxHash (hash : GoString)
  | prettyMarshalFailed (v : PrettyArg F)
  | pretty (out : List Byte)
  deriving Repr

/-- Go's `printPretty` (main.go 267-290): the lines it logs. -/
def printPretty {F Tx : Type} (ext : Libs F Tx) (v : PrettyArg F) : List (LogLine F) :=
  let (out, err) : List Byte × GoErr :=
    match v with
    | PrettyArg.str s =>
      match jsonUnmarshalMap ext s with
      | Except.ok js => ext.MarshalIndent js
      | Except.error _ => (s, none)
    | PrettyArg.val m => ext.MarshalIndent m
  match err with
  | some _ => [LogLine.prettyMarshalFailed v]
  | none => [LogLine.pretty out]

/-! ## `DecodeTransactions` -/

/-- The loop of `DecodeTransactions` (main.go 253-262) from index `idx` on:
`transactions` is the slice of pointers (`none` is a nil pointer), `log` the
lines written so far.  Returns the two results and the log. -/
def DecodeTransactionsLoop {F Tx : Type} (ext : Libs F Tx) :
    List (List Byte) → Nat → List (Option Tx) → List (LogLine F) →
    (Option (List (Option Tx)) × GoErr) × List (LogLine F)
  | [], _, transactions, log => ((some transactions, none), log)
  | txByte :: rest, idx, transactions, log =>
    match ext.UnmarshalBinary txByte with
    | Except.error err => ((none, some err), log ++ [LogLine.decodeTxError err])
    | Except.ok tx =>
      DecodeTransactionsLoop ext rest (idx + 1) (transactions.set idx (some tx))
        (log ++ [LogLine.decodeTxHash (ext.Hash tx)])

/-- Go's `DecodeTransactions` (main.go 251-264).  The first result is the
returned slice, `none` for the nil slice. -/
def DecodeTransactions {F Tx : Type} (ext : Libs F Tx) (txData : List (List Byte)) :
    (Option (List (Option Tx)) × GoErr) × List (LogLine F) :=
  DecodeTransactionsLoop ext txData 0 (List.replicate txData.length none) []

/-! ## The consumer loops -/

/-- How a run of one of the stream functions ends: it returned, the process
was ended by `log.Fatalf`, it panicked on a nil pointer, or every scripted
receive was consumed and it is blocked in the next receive. -/
inductive Exit where
  | returned
  | fatal
  | panicked
  | blocked
  deriving DecidableEq, Repr

/-- What a run of a stream function over a scripted transport did: the lines it
logged, the arguments it handed to `printPretty`, both in order, the scripted
receive results it never asked for, and how it ended.  `R` is the type of one
receive result. -/
structure Run (F R : Type) where
  log : List (LogLine F)
  printed : List (PrettyArg F)
  unread : List R
  exit : Exit

/-- The run that first logs `lines` and hands `args` to `printPretty`, then
goes on as `r`. -/
def Run.after {F R : Type} (lines : List (LogLine F)) (args : List (PrettyArg F))
    (r : Run F R) : Run F R :=
  { log := lines ++ r.log, printed := args ++ r.printed, unread := r.unread, exit := r.exit }

/-- A message of the regular block stream (`basepb`), read through its getters. -/
structure Block where
  BlockNumber : Nat
  BlockHash : GoString
  Transactions : List (List Byte)
  deriving DecidableEq, Repr

/-- A message of the raw flash block stream (`basepb`). -/
structure RawFlashBlock where
  Message : List Byte
  deriving DecidableEq, Repr

/-- The `for` loop of `GetBlockStream` (main.go 70-88) over the results of the
successive `stream.Recv()` calls. -/
def GetBlockStreamLoop {F : Type} : List (Except GoError Block) → Run F (Except GoError Block)
  | [] => { log := [], printed := [], unread := [], exit := Exit.blocked }
  | Except.error err :: rest =>
    { log := [if err = GoError.EOF then LogLine.blockEOF else LogLine.blockRecvError err],
      printed := [], unread := rest, exit := Exit.returned }
  | Except.ok block :: rest =>
    Run.after
      [LogLine.blockReceived block.BlockNumber block.BlockHash block.Transactions.length] []
      (GetBlockStreamLoop rest)

/-- Go's `GetBlockStream` (main.go 42-89): `dial` and `subscribe` are the errors
of `grpc.DialContext` and `client.GetBlockStream`. -/
def GetBlockStream {F : Type} (dial subscribe : GoErr) (recvs : List (Except GoError Block)) :
    Run F (Except GoError Block) :=
  match dial with
  | some err =>
    { log := [LogLine.blockConnecting, LogLine.blockDialFailed err], printed := [],
      unread := recvs, exit := Exit.returned }
  | none =>
    match subscribe with
    | some err =>
      { log := [LogLine.blockConnecting, LogLine.blockConnected, LogLine.blockSubscribeFailed err],
        printed := [], unread := recvs, exit := Exit.returned }
    | none =>
      Run.after [LogLine.blockConnecting, LogLine.blockConnected, LogLine.blockSubscribed] []
        (GetBlockStreamLoop recvs)

/-- The body of the `for` loop of `GetFlashBlockStream` after a successful
receive (main.go 132-144): the lines logged and the arguments handed to
`printPretty` for one message. -/
def flashStep {F Tx : Type} (ext : Libs F Tx) (block : RawFlashBlock) :
    List (LogLine F) × List (PrettyArg F) :=
  match ParseFlashBlockByte ext.NewReader block.Message with
  | (_, some err) => ([LogLine.flashParseFailed err], [])
  | (jsonString, none) =>
    match jsonUnmarshalMap ext jsonString with
    | Except.error err => ([LogLine.flashUnmarshalFailed err], [])
    | Except.ok jsonMap => (printPretty ext (PrettyArg.val jsonMap), [PrettyArg.val jsonMap])

/-- The `for` loop of `GetFlashBlockStream` (main.go 121-145) over the results
of the successive `stream.Recv()` calls. -/
def GetFlashBlockStreamLoop {F Tx : Type} (ext : Libs F Tx) :
    List (Except GoError RawFlashBlock) → Run F (Except GoError RawFlashBlock)
  | [] => { log := [], printed := [], unread := [], exit := Exit.blocked }
  | Except.error err :: rest =>
    { log := [if err = GoError.EOF then LogLine.flashEOF else LogLine.flashRecvError err],
      printed := [], unread := rest, exit := Exit.returned }
  | Except.ok block :: rest =>
    Run.after (flashStep ext block).1 (flashStep ext block).2 (GetFlashBlockStreamLoop ext rest)

/-- Go's `GetFlashBlockStream` (main.go 93-146): `dial` and `subscribe` are the
errors of `grpc.DialContext` and `client.GetRawFlashBlockStream`. -/
def GetFlashBlockStream {F Tx : Type} (ext : Libs F Tx) (dial subscribe : GoErr)
    (recvs : List (Except GoError RawFlashBlock)) : Run F (Except GoError RawFlashBlock) :=
  match dial with
  | some err =>
    { log := [LogLine.flashConnecting, LogLine.flashDialFailed err], printed := [],
      unread := recvs, exit := Exit.returned }
  | none =>
    match subscribe with
    | some err =>
      { log := [LogLine.flashConnecting, LogLine.flashConnected, LogLine.flashSubscribeFailed err],
        printed := [], unread := recvs, exit := Exit.returned }
    | none =>
      Run.after [LogLine.flashConnecting, LogLine.flashConnected, LogLine.flashSubscribed] []
        (GetFlashBlockStreamLoop ext recvs)

/-- The constant `websocket.TextMessage`. -/
def TextMessage : Int := 1

/-- The constant `websocket.BinaryMessage`. -/
def BinaryMessage : Int := 2

/-- A frame returned by `conn.ReadMessage()` with a nil error. -/
structure Frame where
  msgType : Int
  msg : List Byte
  deriving DecidableEq, Repr

/-- The `for` loop of `GetWebSocketFlashBlockStream` (main.go 210-234) over the
results of the successive `conn.ReadMessage()` calls. -/
def GetWebSocketFlashBlockStreamLoop {F Tx : Type} (ext : Libs F Tx) :
    List (Except GoError Frame) → Run F (Except GoError Frame)
  | [] => { log := [], printed := [], unread := [], exit := Exit.blocked }
  | Except.error err :: rest =>
    { log := [LogLine.wsReadError err], printed := [], unread := rest, exit := Exit.returned }
  | Except.ok frame :: rest =>
    if frame.msgType ≠ TextMessage ∧ frame.msgType ≠ BinaryMessage then
      GetWebSocketFlashBlockStreamLoop ext rest
    else
      match ext.UnmarshalEnvelope frame.msg with
      | Except.error err =>
        Run.after [LogLine.wsParseFailed err frame.msg] [] (GetWebSocketFlashBlockStreamLoop ext rest)
      | Except.ok none =>
        { log := [], printed := [], unread := rest, exit := Exit.panicked }
      | Except.ok (some outer) =>
        let resultRaw := outer.Result
        match ParseFlashBlockByte ext.NewReader resultRaw with
        | (jsonString, none) =>
          Run.after (printPretty ext (PrettyArg.str jsonString)) [PrettyArg.str jsonString]
            (GetWebSocketFlashBlockStreamLoop ext rest)
        | (_, some _) =>
          Run.after [LogLine.wsNoValidResult frame.msg] [] (GetWebSocketFlashBlockStreamLoop ext rest)

/-- Go's `GetWebSocketFlashBlockStream` (main.go 179-235): `dial` and `send` are
the errors of `dialer.Dial` and of `conn.WriteMessage` for the subscription
request. -/
def GetWebSocketFlashBlockStream {F Tx : Type} (ext : Libs F Tx) (dial send : GoErr)
    (reads : List (Except GoError Frame)) : Run F (Except GoError Frame) :=
  match dial with
  | some err =>
    { log := [LogLine.wsDialFailed err], printed := [], unread := reads, exit := Exit.fatal }
  | none =>
    match send with
    | some err =>
      { log := [LogLine.wsConnected, LogLine.wsSendFailed err], printed := [], unread := reads,
        exit := Exit.fatal }
    | none =>
      Run.after [LogLine.wsConnected, LogLine.wsRequestSent] []
        (GetWebSocketFlashBlockStreamLoop ext reads)

/-! ## The contract in the words of the specification -/

/-- The specification's `Decoder` then `Normalizer` on one payload: the
normalized record, or `none` when either step fails. -/
def specNormalize {F Tx : Type} (ext : Libs F Tx) (payload : List Byte) : Option (GoMap F) :=
  match ParseFlashBlockByte ext.NewReader payload with
  | (_, some _) => none
  | (text, none) =>
    match jsonUnmarshalMap ext text with
    | Except.ok record => some record
    | Except.error _ => none

/-- The two per-record error reports of the flash-block loop. -/
def isFlashReport {F : Type} : LogLine F → Bool
  | LogLine.flashParseFailed _ => true
  | LogLine.flashUnmarshalFailed _ => true
  | _ => false

/-- The specification's per-record outcome in the flash-block loop: the
normalized record, or the error report for the step that failed. -/
def specFlashOutcome {F Tx : Type} (ext : Libs F Tx) (payload : List Byte) :
    Except (LogLine F) (GoMap F) :=
  match ParseFlashBlockByte ext.NewReader payload with
  | (_, some err) => Except.error (LogLine.flashParseFailed err)
  | (text, none) =>
    match jsonUnmarshalMap ext text with
    | Except.ok record => Except.ok record
    | Except.error err => Except.error (LogLine.flashUnmarshalFailed err)

/-- The text of a line written to the sink of records, `none` for a status or
error line. -/
def sinkLine {F : Type} : LogLine F → Option (List Byte)
  | LogLine.pretty out => some out
  | _ => none

/-- The serialization of a record, `none` when `json.MarshalIndent` fails. -/
def specSerialize {F Tx : Type} (ext : Libs F Tx) (record : GoMap F) : Option (List Byte) :=
  match ext.MarshalIndent record with
  | (out, none) => some out
  | (_, some _) => none

/-- Whether a scripted `ReadMessage` result is a frame that the WebSocket loop
ignores: a frame whose type is neither text nor binary. -/
def isIgnoredFrame : Except GoError Frame → Bool
  | Except.ok frame => decide (frame.msgType ≠ TextMessage ∧ frame.msgType ≠ BinaryMessage)
  | Except.error _ => false

/-- The keys of a map, in stored order. -/
def keysOf {V : Type} (m : List (GoString × V)) : List GoString := m.map Prod.fst

/-- The Go expression `m[k]` on a map, `none` when the key is absent. -/
def mapGet {V : Type} (k : GoString) : List (GoString × V) → Option V
  | [] => none
  | (k1, v1) :: rest => if k = k1 then some v1 else mapGet k rest

/-- Each key of a map is below all later ones, the representation invariant of
`GoVal.map`. -/
def StrictKeys {V : Type} : List (GoString × V) → Prop
  | [] => True
  | (k, _) :: rest => (∀ k1 ∈ keysOf rest, k < k1) ∧ StrictKeys rest

/-- The value of the name `k` in a JSON object: that of the last member with
this name, `none` when there is no such member. -/
def lookupLast (k : GoString) : List (GoString × JSON) → Option JSON
  | [] => none
  | (k1, a) :: rest =>
    match lookupLast k rest with
    | some b => some b
    | none => if k = k1 then some a else none

mutual
/-- Semantic equality of two JSON documents: the same literals and strings,
number literals that denote the same number (`NumEq`), arrays equal element by
element, objects with the same member names and semantically equal values under
each name, whatever the order of the members. -/
def SemEq (NumEq : GoString → GoString → Prop) : JSON → JSON → Prop
  | JSON.null, JSON.null => True
  | JSON.bool a, JSON.bool b => a = b
  | JSON.number a, JSON.number b => NumEq a b
  | JSON.string a, JSON.string b => a = b
  | JSON.array xs, JSON.array ys => SemEqElems NumEq xs ys
  | JSON.object ms, JSON.object ns =>
    SemEqMembers NumEq ms ns ∧ ∀ k ∈ keysOf ns, k ∈ keysOf ms
  | _, _ => False
/-- Two arrays of the same length with semantically equal elements. -/
def SemEqElems (NumEq : GoString → GoString → Prop) : List JSON → List JSON → Prop
  | [], [] => True
  | x :: xs, y :: ys => SemEq NumEq x y ∧ SemEqElems NumEq xs ys
  | _, _ => False
/-- Every member of the first object that is not overridden by a later member
of the same name has a semantically equal value under its name in the second. -/
def SemEqMembers (NumEq : GoString → GoString → Prop) :
    List (GoString × JSON) → List (GoString × JSON) → Prop
  | [], _ => True
  | (k, a) :: rest, ns =>
    (k ∈ keysOf rest ∨ ∃ b, lookupLast k ns = some b ∧ SemEq NumEq a b) ∧
      SemEqMembers NumEq rest ns
end

mutual
/-- Every number literal of a document converts to a `float64` that
`FormatFloat` writes back as a literal denoting the same number. -/
def NumbersExact {F : Type} (ParseFloat : GoString → Option F) (FormatFloat : F → GoString)
    (NumEq : GoString → GoString → Prop) : JSON → Prop
  | JSON.null => True
  | JSON.bool _ => True
  | JSON.number lit => ∃ f, ParseFloat lit = some f ∧ NumEq lit (FormatFloat f)
  | JSON.string _ => True
  | JSON.array elems => NumbersExactElems ParseFloat FormatFloat NumEq elems
  | JSON.object members => NumbersExactMembers ParseFloat FormatFloat NumEq members
/-- Every number literal of the elements of an array is converted exactly. -/
def NumbersExactElems {F : Type} (ParseFloat : GoString → Option F) (FormatFloat : F → GoString)
    (NumEq : GoString → GoString → Prop) : List JSON → Prop
  | [] => True
  | j :: rest =>
    NumbersExact ParseFloat FormatFloat NumEq j ∧
      NumbersExactElems ParseFloat FormatFloat NumEq rest
/-- Every number literal of the members of an object is converted exactly. -/
def NumbersExactMembers {F : Type} (ParseFloat : GoString → Option F)
    (FormatFloat : F → GoString) (NumEq : GoString → GoString → Prop) :
    List (GoString × JSON) → Prop
  | [] => True
  | (_, j) :: rest =>
    NumbersExact ParseFloat FormatFloat NumEq j ∧
      NumbersExactMembers ParseFloat FormatFloat NumEq rest
end

mutual
/-- Every number literal of a document converts to a `float64`. -/
def NumbersFit {F : Type} (ParseFloat : GoString → Option F) : JSON → Prop
  | JSON.null => True
  | JSON.bool _ => True
  | JSON.number lit => ∃ f, ParseFloat lit = some f
  | JSON.string _ => True
  | JSON.array elems => NumbersFitElems ParseFloat elems
  | JSON.object members => NumbersFitMembers ParseFloat members
/-- Every number literal of the elements of an array converts. -/
def NumbersFitElems {F : Type} (ParseFloat : GoString → Option F) : List JSON → Prop
  | [] => True
  | j :: rest => NumbersFit ParseFloat j ∧ NumbersFitElems ParseFloat rest
/-- Every number literal of the members of an object converts. -/
def NumbersFitMembers {F : Type} (ParseFloat : GoString → Option F) :
    List (GoString × JSON) → Prop
  | [] => True
  | (_, j) :: rest => NumbersFit ParseFloat j ∧ NumbersFitMembers ParseFloat rest
end

namespace Example

/-- The bytes of an ASCII string. -/
def bytes (s : String) : List Byte := s.toList.map Char.toNat

/-- The text of the record of the specification's example. -/
def textA : GoString := bytes "\x7b\"a\":1\x7d"

/-- The brotli stream of `textA`: window header and one uncompressed
meta-block of seven bytes, then the empty last meta-block. -/
def brotliA : List Byte := [11, 3, 128] ++ textA ++ [3]

/-- What `json.MarshalIndent` writes for the record of `textA`. -/
def prettyA : List Byte := bytes "\x7b\n  \"a\": 1\n\x7d"

/-- The WebSocket envelope carrying `brotliA` (base64) as its result. -/
def envelopeA : List Byte :=
  bytes "\x7b\"jsonrpc\":\"2.0\",\"result\":\"CwOAeyJhIjoxfQM=\"\x7d"

/-- A text that is not JSON. -/
def textHello : GoString := bytes "hello"

/-- The brotli stream of `textHello`. -/
def brotliHello : List Byte := [11, 2, 128] ++ textHello ++ [3]

/-- The WebSocket envelope carrying `brotliHello` (base64) as its result. -/
def envelopeHello : List Byte :=
  bytes "\x7b\"jsonrpc\":\"2.0\",\"result\":\"CwKAaGVsbG8D\"\x7d"

/-- A JSON text whose top-level value is an array. -/
def textArray : GoString := bytes "[1]"

/-- A frame that is no JSON at all. -/
def garbage : List Byte := bytes "oops"

/-- A frame holding the JSON document `null`. -/
def textNull : List Byte := bytes "null"

/-- A JSON object holding an integer that no `float64` equals. -/
def textBig : GoString := bytes "\x7b\"a\":12345678901234567890\x7d"

/-- The brotli stream of `textBig`: one uncompressed meta-block of 26 bytes. -/
def brotliBig : List Byte := [139, 12, 128] ++ textBig ++ [3]

/-- The WebSocket envelope carrying `brotliBig` (base64) as its result. -/
def envelopeBig : List Byte :=
  bytes "\x7b\"jsonrpc\":\"2.0\",\"result\":\"iwyAeyJhIjoxMjM0NTY3ODkwMTIzNDU2Nzg5MH0D\"\x7d"

/-- The `float64` nearest to 12345678901234567890. -/
def bigFloat : Nat := 12345678901234567168

/-- What `json.MarshalIndent` writes for the record of `textBig`. -/
def prettyBig : List Byte := bytes "\x7b\n  \"a\": 12345678901234567000\n\x7d"

/-- The document that `textA` and `prettyA` are the text of. -/
def docA : JSON := JSON.object [(bytes "a", JSON.number (bytes "1"))]

/-- The document that `textBig` is the text of. -/
def docBig : JSON := JSON.object [(bytes "a", JSON.number (bytes "12345678901234567890"))]

/-- The document that `prettyBig` is the text of. -/
def docBigOut : JSON := JSON.object [(bytes "a", JSON.number (bytes "12345678901234567000"))]

/-- The answers of the libraries at the inputs above; `float64` values are
natural numbers here.  Inputs outside the table are answered with an error;
no example evaluates one. -/
def libs : Libs Nat Nat where
  NewReader := fun data =>
    if data = brotliA then { reads := [textA], lastChunk := [], lastErr := GoError.EOF }
    else if data = brotliHello then
      { reads := [textHello], lastChunk := [], lastErr := GoError.EOF }
    else if data = brotliBig then
      { reads := [textBig], lastChunk := [], lastErr := GoError.EOF }
    else { reads := [], lastChunk := [], lastErr := GoError.other 2 }
  Scan := fun text =>
    if text = textA ∨ text = prettyA then Except.ok docA
    else if text = textArray then Except.ok (JSON.array [JSON.number (bytes "1")])
    else if text = textBig then Except.ok docBig
    else if text = prettyBig then Except.ok docBigOut
    else Except.error (GoError.other 3)
  ParseFloat := fun lit =>
    if lit = bytes "1" then some 1
    else if lit = bytes "12345678901234567890" ∨ lit = bytes "12345678901234567000" then
      some bigFloat
    else none
  MarshalIndent := fun m =>
    match m with
    | some [(_, GoVal.float64 f)] =>
      if f = 1 then (prettyA, none)
      else if f = bigFloat then (prettyBig, none)
      else ([], some (GoError.other 4))
    | _ => ([], some (GoError.other 4))
  UnmarshalEnvelope := fun msg =>
    if msg = envelopeA then Except.ok (some { JsonRPC := bytes "2.0", Result := brotliA })
    else if msg = envelopeHello then
      Except.ok (some { JsonRPC := bytes "2.0", Result := brotliHello })
    else if msg = envelopeBig then
      Except.ok (some { JsonRPC := bytes "2.0", Result := brotliBig })
    else if msg = textNull then Except.ok none
    else Except.error (GoError.other 5)
  UnmarshalBinary := fun blob =>
    match blob with
    | [b] => if b < 128 then Except.ok b else Except.error (GoError.other 6)
    | _ => Except.error (GoError.other 6)
  Hash := fun tx => [tx]

/-- The brotli encoder at the two texts of the examples. -/
def compress (T : GoString) : List Byte :=
  if T = textA then brotliA else if T = textHello then brotliHello else []

/-- How the stand-in writes a `float64`. -/
def FormatFloat (f : Nat) : GoString :=
  if f = 1 then bytes "1" else if f = bigFloat then bytes "12345678901234567000" else []

/-- The number an unsigned integer literal denotes, `none` for any other text. -/
def natValue (lit : GoString) : Option Nat :=
  match lit with
  | [] => none
  | _ =>
    lit.foldl
      (fun acc c =>
        match acc with
        | some n => if 48 ≤ c ∧ c ≤ 57 then some (10 * n + (c - 48)) else none
        | none => none)
      (some 0)

/-- Two unsigned integer literals that denote the same number. -/
def NumEq (a b : GoString) : Prop := natValue a ≠ none ∧ natValue a = natValue b

end Example

/-! ## The payload decoder -/

theorem ReadFromLoop_eq (lastChunk : List Byte) (lastErr : GoError) (reads : List (List Byte)) :
    ∀ buf : List Byte, ReadFromLoop buf lastChunk lastErr reads =
      (buf ++ reads.flatten ++ lastChunk, if lastErr = GoError.EOF then none else some lastErr) := by
  induction reads with
  | nil =>
    intro buf
    by_cases h : lastErr = GoError.EOF <;> simp [ReadFromLoop, h]
  | cons m rest ih =>
    intro buf
    simp [ReadFromLoop, ih, List.append_assoc]

theorem ReadFrom_eq (buf : List Byte) (br : Reader) :
    ReadFrom buf br =
      (buf ++ br.output, if br.lastErr = GoError.EOF then none else some br.lastErr) := by
  simp [ReadFrom, ReadFromLoop_eq, Reader.output, List.append_assoc]

/-- C3: when the brotli reader, given the compressed form of a text `T`,
produces `T` over any number of reads and then signals the end of the stream,
`ParseFlashBlockByte` returns exactly `T`, the whole output and not a prefix of
it, with a nil error. -/
theorem ParseFlashBlockByte_roundtrip (NewReader : List Byte → Reader)
    (compress : GoString → List Byte) (T : GoString)
    (hout : (NewReader (compress T)).output = T)
    (heof : (NewReader (compress T)).lastErr = GoError.EOF) :
    ParseFlashBlockByte NewReader (compress T) = (T, none) := by
  have hread : ReadFrom [] (NewReader (compress T)) = (T, none) := by
    rw [ReadFrom_eq, hout, heof]
    simp
  simp only [ParseFlashBlockByte, hread]

theorem ParseFlashBlockByte_roundtrip_witness :
    (Example.libs.NewReader (Example.compress Example.textA)).output = Example.textA ∧
    (Example.libs.NewReader (Example.compress Example.textA)).lastErr = GoError.EOF ∧
    ParseFlashBlockByte Example.libs.NewReader (Example.compress Example.textA)
      = (Example.textA, none) :=
  ⟨by decide, by decide,
    ParseFlashBlockByte_roundtrip Example.libs.NewReader Example.compress Example.textA
      (by decide) (by decide)⟩

/-- C4: whenever the decompressor reports an error, that is, its reads end
with an error other than the end of the stream, `ParseFlashBlockByte` returns
the empty string together with that error, whatever output the decompressor
had produced before. -/
theorem ParseFlashBlockByte_error (NewReader : List Byte → Reader) (data : List Byte)
    (herr : (NewReader data).lastErr ≠ GoError.EOF) :
    ParseFlashBlockByte NewReader data = ([], some (NewReader data).lastErr) := by
  have hread : ReadFrom [] (NewReader data) =
      ((NewReader data).output, some (NewReader data).lastErr) := by
    rw [ReadFrom_eq]
    simp [herr]
  simp only [ParseFlashBlockByte, hread]

theorem ParseFlashBlockByte_error_witness :
    ((fun _ => ({ reads := [[104, 105]], lastChunk := [33], lastErr := GoError.other 2 } : Reader))
        [11, 3, 128, 104]).output = [104, 105, 33] ∧
    ParseFlashBlockByte
        (fun _ => ({ reads := [[104, 105]], lastChunk := [33], lastErr := GoError.other 2 } : Reader))
        [11, 3, 128, 104] = ([], some (GoError.other 2)) :=
  ⟨by decide,
    ParseFlashBlockByte_error
      (fun _ => ({ reads := [[104, 105]], lastChunk := [33], lastErr := GoError.other 2 } : Reader))
      [11, 3, 128, 104] (by decide)⟩

/-! ## The gRPC consumer loops -/

theorem GetBlockStreamLoop_closed {F : Type} (pre : List Block) (e : GoError)
    (rest : List (Except GoError Block)) :
    @GetBlockStreamLoop F (pre.map Except.ok ++ Except.error e :: rest) =
      { log := pre.map (fun b => LogLine.blockReceived b.BlockNumber b.BlockHash b.Transactions.length)
          ++ [if e = GoError.EOF then LogLine.blockEOF else LogLine.blockRecvError e],
        printed := [], unread := rest, exit := Exit.returned } := by
  induction pre with
  | nil => simp [GetBlockStreamLoop]
  | cons b pre ih => simp [GetBlockStreamLoop, ih, Run.after]

theorem GetFlashBlockStreamLoop_closed {F Tx : Type} (ext : Libs F Tx) (pre : List RawFlashBlock)
    (e : GoError) (rest : List (Except GoError RawFlashBlock)) :
    GetFlashBlockStreamLoop ext (pre.map Except.ok ++ Except.error e :: rest) =
      { log := pre.flatMap (fun b => (flashStep ext b).1)
          ++ [if e = GoError.EOF then LogLine.flashEOF else LogLine.flashRecvError e],
        printed := pre.flatMap (fun b => (flashStep ext b).2),
        unread := rest, exit := Exit.returned } := by
  induction pre with
  | nil => simp [GetFlashBlockStreamLoop]
  | cons b pre ih => simp [GetFlashBlockStreamLoop, ih, Run.after]

theorem printPretty_no_report {F Tx : Type} (ext : Libs F Tx) (v : PrettyArg F) :
    (printPretty ext v).filter isFlashReport = [] := by
  unfold printPretty
  split
  rename_i out err heq
  cases err <;> simp [isFlashReport]

theorem flashStep_printed {F Tx : Type} (ext : Libs F Tx) (b : RawFlashBlock) :
    (flashStep ext b).2 = ((specNormalize ext b.Message).map PrettyArg.val).toList := by
  unfold flashStep specNormalize
  split
  · simp
  · split <;> simp [*]

theorem flashStep_reports {F Tx : Type} (ext : Libs F Tx) (b : RawFlashBlock) :
    ((flashStep ext b).1.filter isFlashReport).length =
      if (specNormalize ext b.Message).isNone then 1 else 0 := by
  unfold flashStep specNormalize
  split
  · simp [isFlashReport]
  · split
    · simp [isFlashReport, *]
    · simp [printPretty_no_report, *]

theorem flash_printed_filterMap {F Tx : Type} (ext : Libs F Tx) (payloads : List (List Byte)) :
    (payloads.map RawFlashBlock.mk).flatMap (fun b => (flashStep ext b).2) =
      (payloads.filterMap (specNormalize ext)).map PrettyArg.val := by
  induction payloads with
  | nil => rfl
  | cons p rest ih =>
    simp only [List.map_cons, List.flatMap_cons, ih, List.filterMap_cons]
    rw [flashStep_printed]
    cases specNormalize ext p <;> simp

theorem flash_reports_count {F Tx : Type} (ext : Libs F Tx) (payloads : List (List Byte)) :
    (((payloads.map RawFlashBlock.mk).flatMap (fun b => (flashStep ext b).1)).filter
        isFlashReport).length =
      (payloads.filter (fun p => (specNormalize ext p).isNone)).length := by
  induction payloads with
  | nil => rfl
  | cons p rest ih =>
    simp only [List.map_cons, List.flatMap_cons, List.filter_append, List.length_append, ih,
      List.filter_cons]
    rw [flashStep_reports]
    cases specNormalize ext p
    · simp
      omega
    · simp

theorem flashStep_lines {F Tx : Type} (ext : Libs F Tx) (b : RawFlashBlock) :
    (flashStep ext b).1 =
      match specFlashOutcome ext b.Message with
      | Except.ok record => printPretty ext (PrettyArg.val record)
      | Except.error report => [report] := by
  unfold flashStep specFlashOutcome
  split
  · simp
  · split <;> simp [*]

theorem printPretty_val_sink {F Tx : Type} (ext : Libs F Tx) (record : GoMap F) :
    (printPretty ext (PrettyArg.val record)).filterMap sinkLine =
      (specSerialize ext record).toList := by
  rcases hm : ext.MarshalIndent record with ⟨out, err⟩
  cases err <;> simp [printPretty, specSerialize, hm, sinkLine]

theorem flashStep_sink {F Tx : Type} (ext : Libs F Tx) (b : RawFlashBlock) :
    (flashStep ext b).1.filterMap sinkLine =
      ((specNormalize ext b.Message).bind (specSerialize ext)).toList := by
  unfold flashStep specNormalize
  split
  · simp [sinkLine]
  · split
    · simp [sinkLine, *]
    · simp [printPretty_val_sink, *]

theorem flash_log_flatMap {F Tx : Type} (ext : Libs F Tx) (payloads : List (List Byte)) :
    (payloads.map RawFlashBlock.mk).flatMap (fun b => (flashStep ext b).1) =
      payloads.flatMap (fun p =>
        match specFlashOutcome ext p with
        | Except.ok record => printPretty ext (PrettyArg.val record)
        | Except.error report => [report]) := by
  induction payloads with
  | nil => rfl
  | cons p rest ih =>
    simp only [List.map_cons, List.flatMap_cons, ih]
    rw [flashStep_lines]

theorem flash_sink_filterMap {F Tx : Type} (ext : Libs F Tx) (payloads : List (List Byte)) :
    ((payloads.map RawFlashBlock.mk).flatMap (fun b => (flashStep ext b).1)).filterMap sinkLine =
      (payloads.filterMap (specNormalize ext)).filterMap (specSerialize ext) := by
  induction payloads with
  | nil => rfl
  | cons p rest ih =>
    simp only [List.map_cons, List.flatMap_cons, List.filterMap_append, ih, List.filterMap_cons]
    rw [flashStep_sink]
    cases h1 : specNormalize ext p with
    | none => simp
    | some record =>
      cases h2 : specSerialize ext record <;> simp [h2]

/-- C1: on payloads `p₁ … pₙ` followed by a receive error, the flash-block
loop hands to `printPretty`, in payload order, exactly the normalized decodings
of the payloads on which both `ParseFlashBlockByte` and the JSON normalization
succeed.  Its log is, payload by payload and in order, what `printPretty`
writes for the record of a payload on which both steps succeed and the one
error report of the failing step for any other payload, followed by the line
for the receive error; so the lines reaching the sink are the serializations of
those records in payload order, each failing payload gets one report and
nothing else, and every later payload is still processed before the loop
returns at the receive error. -/
theorem GetFlashBlockStreamLoop_records {F Tx : Type} (ext : Libs F Tx)
    (payloads : List (List Byte)) (e : GoError) :
    (GetFlashBlockStreamLoop ext
        ((payloads.map RawFlashBlock.mk).map Except.ok ++ [Except.error e])).printed =
      (payloads.filterMap (specNormalize ext)).map PrettyArg.val ∧
    (GetFlashBlockStreamLoop ext
        ((payloads.map RawFlashBlock.mk).map Except.ok ++ [Except.error e])).log =
      payloads.flatMap (fun p =>
        match specFlashOutcome ext p with
        | Except.ok record => printPretty ext (PrettyArg.val record)
        | Except.error report => [report])
      ++ [if e = GoError.EOF then LogLine.flashEOF else LogLine.flashRecvError e] ∧
    (GetFlashBlockStreamLoop ext
        ((payloads.map RawFlashBlock.mk).map Except.ok ++ [Except.error e])).log.filterMap
        sinkLine =
      (payloads.filterMap (specNormalize ext)).filterMap (specSerialize ext) ∧
    ((GetFlashBlockStreamLoop ext
        ((payloads.map RawFlashBlock.mk).map Except.ok ++ [Except.error e])).log.filter
        isFlashReport).length =
      (payloads.filter (fun p => (specNormalize ext p).isNone)).length ∧
    (GetFlashBlockStreamLoop ext
        ((payloads.map RawFlashBlock.mk).map Except.ok ++ [Except.error e])).exit = Exit.returned ∧
    (GetFlashBlockStreamLoop ext
        ((payloads.map RawFlashBlock.mk).map Except.ok ++ [Except.error e])).unread = [] := by
  rw [GetFlashBlockStreamLoop_closed]
  refine ⟨flash_printed_filterMap ext payloads, ?_, ?_, ?_, rfl, rfl⟩
  · simp only [flash_log_flatMap]
  · simp only [List.filterMap_append, flash_sink_filterMap]
    by_cases h : e = GoError.EOF <;> simp [h, sinkLine]
  · simp only [List.filter_append, List.length_append, flash_reports_count]
    by_cases h : e = GoError.EOF <;> simp [h, isFlashReport]

/-! ## The WebSocket consumer loop -/

theorem ws_stop {F Tx : Type} (ext : Libs F Tx) (e : GoError) (rest : List (Except GoError Frame))
    (pre : List Frame) :
    (GetWebSocketFlashBlockStreamLoop ext (pre.map Except.ok ++ Except.error e :: rest)).log =
      (GetWebSocketFlashBlockStreamLoop ext (pre.map Except.ok ++ [Except.error e])).log ∧
    (GetWebSocketFlashBlockStreamLoop ext (pre.map Except.ok ++ Except.error e :: rest)).printed =
      (GetWebSocketFlashBlockStreamLoop ext (pre.map Except.ok ++ [Except.error e])).printed ∧
    (GetWebSocketFlashBlockStreamLoop ext (pre.map Except.ok ++ Except.error e :: rest)).exit =
      (GetWebSocketFlashBlockStreamLoop ext (pre.map Except.ok ++ [Except.error e])).exit ∧
    (GetWebSocketFlashBlockStreamLoop ext (pre.map Except.ok ++ Except.error e :: rest)).unread =
      (GetWebSocketFlashBlockStreamLoop ext (pre.map Except.ok ++ [Except.error e])).unread ++ rest ∧
    (((GetWebSocketFlashBlockStreamLoop ext (pre.map Except.ok ++ Except.error e :: rest)).exit =
          Exit.returned ∧
        (GetWebSocketFlashBlockStreamLoop ext (pre.map Except.ok ++ Except.error e :: rest)).unread =
          rest) ∨
      (GetWebSocketFlashBlockStreamLoop ext (pre.map Except.ok ++ Except.error e :: rest)).exit =
        Exit.panicked) := by
  induction pre with
  | nil => simp [GetWebSocketFlashBlockStreamLoop]
  | cons f pre ih =>
    simp only [List.map_cons, List.cons_append, GetWebSocketFlashBlockStreamLoop]
    split
    · exact ih
    · split
      · simpa [Run.after] using ih
      · simp
      · split <;> simpa [Run.after] using ih

theorem ws_step_ignored {F Tx : Type} (ext : Libs F Tx) (frame : Frame)
    (rest : List (Except GoError Frame))
    (hty : frame.msgType ≠ TextMessage ∧ frame.msgType ≠ BinaryMessage) :
    GetWebSocketFlashBlockStreamLoop ext (Except.ok frame :: rest) =
      GetWebSocketFlashBlockStreamLoop ext rest := by
  rw [GetWebSocketFlashBlockStreamLoop]
  exact if_pos hty

theorem ws_step_handled {F Tx : Type} (ext : Libs F Tx) (frame : Frame)
    (rest : List (Except GoError Frame))
    (hty : ¬ (frame.msgType ≠ TextMessage ∧ frame.msgType ≠ BinaryMessage)) :
    GetWebSocketFlashBlockStreamLoop ext (Except.ok frame :: rest) =
      match ext.UnmarshalEnvelope frame.msg with
      | Except.error err =>
        Run.after [LogLine.wsParseFailed err frame.msg] [] (GetWebSocketFlashBlockStreamLoop ext rest)
      | Except.ok none =>
        { log := [], printed := [], unread := rest, exit := Exit.panicked }
      | Except.ok (some outer) =>
        match ParseFlashBlockByte ext.NewReader outer.Result with
        | (jsonString, none) =>
          Run.after (printPretty ext (PrettyArg.str jsonString)) [PrettyArg.str jsonString]
            (GetWebSocketFlashBlockStreamLoop ext rest)
        | (_, some _) =>
          Run.after [LogLine.wsNoValidResult frame.msg] [] (GetWebSocketFlashBlockStreamLoop ext rest) := by
  rw [GetWebSocketFlashBlockStreamLoop]
  exact if_neg hty

/-- C2: in each of the three consumer loops the first receive that returns an
error ends the loop.  After any received messages, a receive error `e`
(end-of-stream or not) followed by further scripted results `rest` leaves
`rest` unread, and the log and the printed records are those of the run in
which nothing follows the error; the WebSocket loop may already have ended
(on a nil envelope) before the error, and then too `rest` stays unread.  When
the very first receive signals end-of-stream nothing is printed. -/
theorem loops_stop_at_first_receive_error {F Tx : Type} (ext : Libs F Tx) (e : GoError) :
    (∀ (pre : List Block) (rest : List (Except GoError Block)),
      (@GetBlockStreamLoop F (pre.map Except.ok ++ Except.error e :: rest)).exit = Exit.returned ∧
      (@GetBlockStreamLoop F (pre.map Except.ok ++ Except.error e :: rest)).unread = rest ∧
      (@GetBlockStreamLoop F (pre.map Except.ok ++ Except.error e :: rest)).log =
        (@GetBlockStreamLoop F (pre.map Except.ok ++ [Except.error e])).log ∧
      (@GetBlockStreamLoop F (pre.map Except.ok ++ Except.error e :: rest)).printed =
        (@GetBlockStreamLoop F (pre.map Except.ok ++ [Except.error e])).printed) ∧
    (∀ (pre : List RawFlashBlock) (rest : List (Except GoError RawFlashBlock)),
      (GetFlashBlockStreamLoop ext (pre.map Except.ok ++ Except.error e :: rest)).exit =
        Exit.returned ∧
      (GetFlashBlockStreamLoop ext (pre.map Except.ok ++ Except.error e :: rest)).unread = rest ∧
      (GetFlashBlockStreamLoop ext (pre.map Except.ok ++ Except.error e :: rest)).log =
        (GetFlashBlockStreamLoop ext (pre.map Except.ok ++ [Except.error e])).log ∧
      (GetFlashBlockStreamLoop ext (pre.map Except.ok ++ Except.error e :: rest)).printed =
        (GetFlashBlockStreamLoop ext (pre.map Except.ok ++ [Except.error e])).printed) ∧
    (∀ (pre : List Frame) (rest : List (Except GoError Frame)),
      (GetWebSocketFlashBlockStreamLoop ext (pre.map Except.ok ++ Except.error e :: rest)).log =
        (GetWebSocketFlashBlockStreamLoop ext (pre.map Except.ok ++ [Except.error e])).log ∧
      (GetWebSocketFlashBlockStreamLoop ext (pre.map Except.ok ++ Except.error e :: rest)).printed =
        (GetWebSocketFlashBlockStreamLoop ext (pre.map Except.ok ++ [Except.error e])).printed ∧
      (GetWebSocketFlashBlockStreamLoop ext (pre.map Except.ok ++ Except.error e :: rest)).exit =
        (GetWebSocketFlashBlockStreamLoop ext (pre.map Except.ok ++ [Except.error e])).exit ∧
      (GetWebSocketFlashBlockStreamLoop ext (pre.map Except.ok ++ Except.error e :: rest)).unread =
        (GetWebSocketFlashBlockStreamLoop ext (pre.map Except.ok ++ [Except.error e])).unread
          ++ rest ∧
      (((GetWebSocketFlashBlockStreamLoop ext (pre.map Except.ok ++ Except.error e :: rest)).exit =
            Exit.returned ∧
          (GetWebSocketFlashBlockStreamLoop ext (pre.map Except.ok ++ Except.error e :: rest)).unread =
            rest) ∨
        (GetWebSocketFlashBlockStreamLoop ext (pre.map Except.ok ++ Except.error e :: rest)).exit =
          Exit.panicked)) ∧
    (∀ rest : List (Except GoError Block),
      @GetBlockStreamLoop F (Except.error GoError.EOF :: rest) =
        { log := [LogLine.blockEOF], printed := [], unread := rest, exit := Exit.returned }) ∧
    (∀ rest : List (Except GoError RawFlashBlock),
      GetFlashBlockStreamLoop ext (Except.error GoError.EOF :: rest) =
        { log := [LogLine.flashEOF], printed := [], unread := rest, exit := Exit.returned }) ∧
    (∀ rest : List (Except GoError Frame),
      GetWebSocketFlashBlockStreamLoop ext (Except.error GoError.EOF :: rest) =
        { log := [LogLine.wsReadError GoError.EOF], printed := [], unread := rest,
          exit := Exit.returned }) := by
  refine ⟨?_, ?_, ?_, ?_, ?_, ?_⟩
  · intro pre rest
    simp [GetBlockStreamLoop_closed]
  · intro pre rest
    simp [GetFlashBlockStreamLoop_closed]
  · intro pre rest
    exact ws_stop ext e rest pre
  · intro rest
    simp [GetBlockStreamLoop]
  · intro rest
    simp [GetFlashBlockStreamLoop]
  · intro rest
    simp [GetWebSocketFlashBlockStreamLoop]

/-- C9: frames whose type is neither text nor binary are ignored without
error: deleting all of them from any sequence of read results leaves the log
(records and error reports alike), the printed records and the way the loop
ends unchanged, and the results left unread are the same up to that deletion;
so such a frame adds no record and no log line. -/
theorem ws_ignores_other_frames {F Tx : Type} (ext : Libs F Tx)
    (reads : List (Except GoError Frame)) :
    (GetWebSocketFlashBlockStreamLoop ext (reads.filter (fun r => !isIgnoredFrame r))).log =
      (GetWebSocketFlashBlockStreamLoop ext reads).log ∧
    (GetWebSocketFlashBlockStreamLoop ext (reads.filter (fun r => !isIgnoredFrame r))).printed =
      (GetWebSocketFlashBlockStreamLoop ext reads).printed ∧
    (GetWebSocketFlashBlockStreamLoop ext (reads.filter (fun r => !isIgnoredFrame r))).exit =
      (GetWebSocketFlashBlockStreamLoop ext reads).exit ∧
    (GetWebSocketFlashBlockStreamLoop ext (reads.filter (fun r => !isIgnoredFrame r))).unread =
      (GetWebSocketFlashBlockStreamLoop ext reads).unread.filter (fun r => !isIgnoredFrame r) := by
  induction reads with
  | nil => simp [GetWebSocketFlashBlockStreamLoop]
  | cons r rest ih =>
    cases r with
    | error err => simp [GetWebSocketFlashBlockStreamLoop, isIgnoredFrame]
    | ok frame =>
      by_cases hty : frame.msgType ≠ TextMessage ∧ frame.msgType ≠ BinaryMessage
      · have hig : isIgnoredFrame (Except.ok frame) = true := by simp [isIgnoredFrame, hty]
        rw [ws_step_ignored ext frame rest hty]
        simpa [List.filter_cons, hig] using ih
      · have hig : isIgnoredFrame (Except.ok frame) = false := by
          simp only [isIgnoredFrame, decide_eq_false_iff_not]
          exact hty
        simp only [List.filter_cons, hig, Bool.not_false, if_true]
        rw [ws_step_handled ext frame rest hty, ws_step_handled ext frame _ hty]
        split
        · simpa [Run.after] using ih
        · simp
        · split <;> simpa [Run.after] using ih

theorem ws_malformed_anywhere {F Tx : Type} (ext : Libs F Tx) (frame : Frame) (e : GoError)
    (rest : List (Except GoError Frame))
    (hty : ¬ (frame.msgType ≠ TextMessage ∧ frame.msgType ≠ BinaryMessage))
    (herr : ext.UnmarshalEnvelope frame.msg = Except.error e)
    (pre : List (Except GoError Frame)) :
    (GetWebSocketFlashBlockStreamLoop ext (pre ++ Except.ok frame :: rest)).printed =
      (GetWebSocketFlashBlockStreamLoop ext (pre ++ rest)).printed ∧
    (GetWebSocketFlashBlockStreamLoop ext (pre ++ Except.ok frame :: rest)).exit =
      (GetWebSocketFlashBlockStreamLoop ext (pre ++ rest)).exit := by
  induction pre with
  | nil =>
    simp only [List.nil_append]
    rw [ws_step_handled ext frame rest hty, herr]
    simp [Run.after]
  | cons r pre ih =>
    cases r with
    | error err => simp [GetWebSocketFlashBlockStreamLoop]
    | ok f =>
      simp only [List.cons_append]
      by_cases hf : f.msgType ≠ TextMessage ∧ f.msgType ≠ BinaryMessage
      · rw [ws_step_ignored ext f _ hf, ws_step_ignored ext f _ hf]
        exact ih
      · rw [ws_step_handled ext f _ hf, ws_step_handled ext f _ hf]
        split
        · simpa [Run.after] using ih
        · simp
        · split <;> simpa [Run.after] using ih

/-- The error branch of the envelope parsing (main.go 222-225): a text or
binary frame on which the envelope's `json.Unmarshal` reports an error is
skipped: the loop logs one parse-failure line for it,
prints no record, does not end, and runs on the following frames exactly as
the loop started on them would; wherever the frame stands in a sequence, the
records printed and the way the loop ends are those of the sequence without
it. -/
theorem ws_malformed_envelope_skipped {F Tx : Type} (ext : Libs F Tx) (frame : Frame)
    (e : GoError) (rest : List (Except GoError Frame))
    (hty : frame.msgType = TextMessage ∨ frame.msgType = BinaryMessage)
    (herr : ext.UnmarshalEnvelope frame.msg = Except.error e) :
    GetWebSocketFlashBlockStreamLoop ext (Except.ok frame :: rest) =
      Run.after [LogLine.wsParseFailed e frame.msg] [] (GetWebSocketFlashBlockStreamLoop ext rest) ∧
    ∀ pre : List (Except GoError Frame),
      (GetWebSocketFlashBlockStreamLoop ext (pre ++ Except.ok frame :: rest)).printed =
        (GetWebSocketFlashBlockStreamLoop ext (pre ++ rest)).printed ∧
      (GetWebSocketFlashBlockStreamLoop ext (pre ++ Except.ok frame :: rest)).exit =
        (GetWebSocketFlashBlockStreamLoop ext (pre ++ rest)).exit := by
  have hty2 : ¬ (frame.msgType ≠ TextMessage ∧ frame.msgType ≠ BinaryMessage) := by
    rintro ⟨h1, h2⟩
    rcases hty with h | h
    · exact h1 h
    · exact h2 h
  refine ⟨?_, ws_malformed_anywhere ext frame e rest hty2 herr⟩
  rw [ws_step_handled ext frame rest hty2, herr]

theorem ws_malformed_envelope_skipped_witness :
    ((⟨1, Example.garbage⟩ : Frame).msgType = TextMessage ∨
      (⟨1, Example.garbage⟩ : Frame).msgType = BinaryMessage) ∧
    Example.libs.UnmarshalEnvelope (⟨1, Example.garbage⟩ : Frame).msg =
      Except.error (GoError.other 5) ∧
    (GetWebSocketFlashBlockStreamLoop Example.libs
        (Except.ok ⟨1, Example.garbage⟩ :: [Except.ok ⟨1, Example.envelopeA⟩]) =
      Run.after [LogLine.wsParseFailed (GoError.other 5) (⟨1, Example.garbage⟩ : Frame).msg] []
        (GetWebSocketFlashBlockStreamLoop Example.libs [Except.ok ⟨1, Example.envelopeA⟩]) ∧
    ∀ pre : List (Except GoError Frame),
      (GetWebSocketFlashBlockStreamLoop Example.libs
          (pre ++ Except.ok ⟨1, Example.garbage⟩ :: [Except.ok ⟨1, Example.envelopeA⟩])).printed =
        (GetWebSocketFlashBlockStreamLoop Example.libs
          (pre ++ [Except.ok ⟨1, Example.envelopeA⟩])).printed ∧
      (GetWebSocketFlashBlockStreamLoop Example.libs
          (pre ++ Except.ok ⟨1, Example.garbage⟩ :: [Except.ok ⟨1, Example.envelopeA⟩])).exit =
        (GetWebSocketFlashBlockStreamLoop Example.libs
          (pre ++ [Except.ok ⟨1, Example.envelopeA⟩])).exit) :=
  ⟨Or.inl rfl, rfl,
    ws_malformed_envelope_skipped Example.libs ⟨1, Example.garbage⟩ (GoError.other 5)
      [Except.ok ⟨1, Example.envelopeA⟩] (Or.inl rfl) rfl⟩

/-- C7 fails on the code: the text frame `null` is not a well-formed
envelope, yet `json.Unmarshal` accepts it and sets `outer` to nil, and the
loop then panics on `outer.Result` (main.go 228): nothing is logged for the
frame, the loop ends, and the frames after it, which the loop would have
processed, are never read. -/
theorem ws_null_frame_panics :
    Example.libs.UnmarshalEnvelope Example.textNull = Except.ok none ∧
    GetWebSocketFlashBlockStreamLoop Example.libs
        [Except.ok ⟨1, Example.textNull⟩, Except.ok ⟨1, Example.envelopeA⟩,
          Except.error GoError.EOF] =
      { log := [], printed := [],
        unread := [Except.ok ⟨1, Example.envelopeA⟩, Except.error GoError.EOF],
        exit := Exit.panicked } ∧
    GetWebSocketFlashBlockStreamLoop Example.libs
        [Except.ok ⟨1, Example.envelopeA⟩, Except.error GoError.EOF] =
      { log := [LogLine.pretty Example.prettyA, LogLine.wsReadError GoError.EOF],
        printed := [PrettyArg.str Example.textA], unread := [], exit := Exit.returned } :=
  ⟨rfl, rfl, rfl⟩

/-- C8 fails as stated: the frame `envelopeHello` carries a result that
decompresses to `hello`, which is not JSON; the WebSocket loop hands that text
to `printPretty`, which logs it unchanged through the sink, and no error line
is logged for it. -/
theorem ws_invalid_text_reaches_sink :
    jsonUnmarshalMap Example.libs Example.textHello = Except.error (GoError.other 3) ∧
    GetWebSocketFlashBlockStreamLoop Example.libs [Except.ok ⟨1, Example.envelopeHello⟩] =
      { log := [LogLine.pretty Example.textHello],
        printed := [PrettyArg.str Example.textHello], unread := [], exit := Exit.blocked } ∧
    (GetWebSocketFlashBlockStreamLoop Example.libs
      [Except.ok ⟨1, Example.envelopeHello⟩]).printed ≠ [] :=
  ⟨rfl, rfl, fun h => by
    have h2 : (GetWebSocketFlashBlockStreamLoop Example.libs
        [Except.ok ⟨1, Example.envelopeHello⟩]).printed = [PrettyArg.str Example.textHello] := rfl
    rw [h2] at h
    exact List.cons_ne_nil _ _ h⟩

/-- C8 as amended: in the WebSocket loop a text or binary frame whose envelope
decodes and whose result decompresses to a text that is not valid JSON is not
an error: `printPretty` writes the decompressed text unchanged to the sink, no
error line is logged, and the loop goes on with the next frame. -/
theorem ws_invalid_text_printed_raw {F Tx : Type} (ext : Libs F Tx) (frame : Frame)
    (outer : FlashBlockWebSocketResponse) (T : GoString) (e : GoError)
    (rest : List (Except GoError Frame))
    (hty : frame.msgType = TextMessage ∨ frame.msgType = BinaryMessage)
    (henv : ext.UnmarshalEnvelope frame.msg = Except.ok (some outer))
    (hdec : ParseFlashBlockByte ext.NewReader outer.Result = (T, none))
    (hbad : jsonUnmarshalMap ext T = Except.error e) :
    GetWebSocketFlashBlockStreamLoop ext (Except.ok frame :: rest) =
      Run.after [LogLine.pretty T] [PrettyArg.str T] (GetWebSocketFlashBlockStreamLoop ext rest) := by
  have hty2 : ¬ (frame.msgType ≠ TextMessage ∧ frame.msgType ≠ BinaryMessage) := by
    rintro ⟨h1, h2⟩
    rcases hty with h | h
    · exact h1 h
    · exact h2 h
  rw [ws_step_handled ext frame rest hty2, henv]
  simp only [hdec, printPretty, hbad]

theorem ws_invalid_text_printed_raw_witness :
    ((⟨2, Example.envelopeHello⟩ : Frame).msgType = TextMessage ∨
      (⟨2, Example.envelopeHello⟩ : Frame).msgType = BinaryMessage) ∧
    GetWebSocketFlashBlockStreamLoop Example.libs
        (Except.ok ⟨2, Example.envelopeHello⟩ :: [Except.error GoError.EOF]) =
      Run.after [LogLine.pretty Example.textHello] [PrettyArg.str Example.textHello]
        (GetWebSocketFlashBlockStreamLoop Example.libs [Except.error GoError.EOF]) :=
  ⟨Or.inr rfl,
    ws_invalid_text_printed_raw Example.libs ⟨2, Example.envelopeHello⟩
      { JsonRPC := Example.bytes "2.0", Result := Example.brotliHello } Example.textHello
      (GoError.other 3) [Except.error GoError.EOF] (Or.inr rfl) rfl rfl rfl⟩

/-! ## `DecodeTransactions` -/

theorem set_after_done {α : Type} (done tail : List α) (x y : α) :
    (done ++ x :: tail).set done.length y = (done ++ [y]) ++ tail := by
  induction done with
  | nil => simp
  | cons d done ih => simp [ih]

theorem DecodeTransactionsLoop_ok {F Tx : Type} (ext : Libs F Tx) (blobs : List (List Byte))
    (txs : List Tx)
    (hdec : List.Forall₂ (fun blob tx => ext.UnmarshalBinary blob = Except.ok tx) blobs txs) :
    ∀ (done : List (Option Tx)) (log : List (LogLine F)),
      DecodeTransactionsLoop ext blobs done.length (done ++ List.replicate blobs.length none) log =
        ((some (done ++ txs.map some), none),
          log ++ txs.map (fun tx => LogLine.decodeTxHash (ext.Hash tx))) := by
  induction hdec with
  | nil =>
    intro done log
    simp [DecodeTransactionsLoop]
  | @cons blob tx blobs txs hhead _ ih =>
    intro done log
    simp only [DecodeTransactionsLoop, hhead, List.length_cons, List.replicate_succ]
    rw [set_after_done]
    have h := ih (done ++ [some tx]) (log ++ [LogLine.decodeTxHash (ext.Hash tx)])
    simp only [List.length_append, List.length_singleton] at h
    rw [h]
    simp

theorem DecodeTransactionsLoop_error {F Tx : Type} (ext : Libs F Tx) (blobs : List (List Byte))
    (txs : List Tx) (bad : List Byte) (e : GoError) (rest : List (List Byte))
    (hdec : List.Forall₂ (fun blob tx => ext.UnmarshalBinary blob = Except.ok tx) blobs txs)
    (hbad : ext.UnmarshalBinary bad = Except.error e) :
    ∀ (idx : Nat) (transactions : List (Option Tx)) (log : List (LogLine F)),
      DecodeTransactionsLoop ext (blobs ++ bad :: rest) idx transactions log =
        ((none, some e),
          log ++ txs.map (fun tx => LogLine.decodeTxHash (ext.Hash tx))
            ++ [LogLine.decodeTxError e]) := by
  induction hdec with
  | nil =>
    intro idx transactions log
    simp [DecodeTransactionsLoop, hbad]
  | cons hhead _ ih =>
    intro idx transactions log
    simp [DecodeTransactionsLoop, hhead, ih]

/-- C10: `DecodeTransactions` is all-or-nothing and keeps the order.  When
every blob of `blobs` decodes, to `txs` blob by blob, the result is the slice
of pointers to `txs`, of the same length as the input, with a nil error and
one hash line per transaction; when a blob `bad` after them fails with `e`,
the result is the nil slice together with `e`, and the log stops at the error
line, so no blob after `bad` is decoded. -/
theorem DecodeTransactions_all_or_nothing {F Tx : Type} (ext : Libs F Tx)
    (blobs : List (List Byte)) (txs : List Tx)
    (hdec : List.Forall₂ (fun blob tx => ext.UnmarshalBinary blob = Except.ok tx) blobs txs) :
    DecodeTransactions ext blobs =
      ((some (txs.map some), none), txs.map (fun tx => LogLine.decodeTxHash (ext.Hash tx))) ∧
    (txs.map some).length = blobs.length ∧
    (∀ (i : Nat) (hi : i < blobs.length) (hj : i < txs.length),
      ext.UnmarshalBinary (blobs.get ⟨i, hi⟩) = Except.ok (txs.get ⟨i, hj⟩)) ∧
    ∀ (bad : List Byte) (e : GoError) (rest : List (List Byte)),
      ext.UnmarshalBinary bad = Except.error e →
      DecodeTransactions ext (blobs ++ bad :: rest) =
        ((none, some e),
          txs.map (fun tx => LogLine.decodeTxHash (ext.Hash tx)) ++ [LogLine.decodeTxError e]) := by
  refine ⟨?_, ?_, ?_, ?_⟩
  · have h := DecodeTransactionsLoop_ok ext blobs txs hdec [] []
    simpa [DecodeTransactions] using h
  · simp [hdec.length_eq]
  · intro i hi hj
    exact List.Forall₂.get hdec hi hj
  · intro bad e rest hbad
    have h := DecodeTransactionsLoop_error ext blobs txs bad e rest hdec hbad 0
      (List.replicate (blobs ++ bad :: rest).length none) []
    simpa [DecodeTransactions] using h

theorem DecodeTransactions_all_or_nothing_witness :
    List.Forall₂ (fun blob tx => Example.libs.UnmarshalBinary blob = Except.ok tx)
      [[1], [2]] [1, 2] ∧
    DecodeTransactions Example.libs [[1], [2]] =
      ((some [some 1, some 2], none), [LogLine.decodeTxHash [1], LogLine.decodeTxHash [2]]) ∧
    DecodeTransactions Example.libs ([[1], [2]] ++ [200] :: [[3]]) =
      ((none, some (GoError.other 6)),
        [LogLine.decodeTxHash [1], LogLine.decodeTxHash [2],
          LogLine.decodeTxError (GoError.other 6)]) :=
  have hdec : List.Forall₂ (fun blob tx => Example.libs.UnmarshalBinary blob = Except.ok tx)
      [[1], [2]] [1, 2] :=
    List.Forall₂.cons rfl (List.Forall₂.cons rfl List.Forall₂.nil)
  ⟨hdec, (DecodeTransactions_all_or_nothing Example.libs [[1], [2]] [1, 2] hdec).1,
    (DecodeTransactions_all_or_nothing Example.libs [[1], [2]] [1, 2] hdec).2.2.2 [200]
      (GoError.other 6) [[3]] rfl⟩

/-! ## JSON normalization -/

theorem mem_keysOf_mapSet {V : Type} (k : GoString) (v : V) (m : List (GoString × V))
    (k2 : GoString) (h : k2 ∈ keysOf (mapSet k v m)) : k2 = k ∨ k2 ∈ keysOf m := by
  induction m with
  | nil =>
    simp [mapSet, keysOf] at h
    exact Or.inl h
  | cons p rest ih =>
    obtain ⟨k1, v1⟩ := p
    unfold mapSet at h
    split_ifs at h with h1 h2
    · simp [keysOf] at h ⊢
      rcases h with h | h
      · exact Or.inl h
      · exact Or.inr (Or.inr h)
    · simp [keysOf] at h ⊢
      exact h
    · simp only [keysOf, List.map_cons, List.mem_cons] at h ⊢
      rcases h with h | h
      · exact Or.inr (Or.inl h)
      · rcases ih h with h3 | h3
        · exact Or.inl h3
        · exact Or.inr (Or.inr h3)

theorem mapSet_strict {V : Type} (k : GoString) (v : V) (m : List (GoString × V))
    (hm : StrictKeys m) : StrictKeys (mapSet k v m) := by
  induction m with
  | nil => simp [mapSet, StrictKeys, keysOf]
  | cons p rest ih =>
    obtain ⟨k1, v1⟩ := p
    simp only [StrictKeys] at hm
    obtain ⟨hlt, hrest⟩ := hm
    unfold mapSet
    split_ifs with h1 h2
    · simp only [StrictKeys]
      exact ⟨fun k2 hk2 => h1 ▸ hlt k2 hk2, hrest⟩
    · simp only [StrictKeys]
      refine ⟨?_, hlt, hrest⟩
      intro k2 hk2
      simp only [keysOf, List.map_cons, List.mem_cons] at hk2
      rcases hk2 with h | h
      · rw [h]
        exact h2
      · exact lt_trans h2 (hlt k2 h)
    · simp only [StrictKeys]
      refine ⟨?_, ih hrest⟩
      intro k2 hk2
      rcases mem_keysOf_mapSet k v rest k2 hk2 with h | h
      · rw [h]
        rcases lt_trichotomy k k1 with h3 | h3 | h3
        · exact absurd h3 h2
        · exact absurd h3 h1
        · exact h3
      · exact hlt k2 h

theorem mapGet_mapSet_self {V : Type} (k : GoString) (v : V) (m : List (GoString × V)) :
    mapGet k (mapSet k v m) = some v := by
  induction m with
  | nil => simp [mapSet, mapGet]
  | cons p rest ih =>
    obtain ⟨k1, v1⟩ := p
    unfold mapSet
    split_ifs with h1 h2
    · simp [mapGet]
    · simp [mapGet]
    · simp [mapGet, h1, ih]

theorem mapGet_mapSet_other {V : Type} (k k2 : GoString) (v : V) (m : List (GoString × V))
    (hne : k2 ≠ k) : mapGet k2 (mapSet k v m) = mapGet k2 m := by
  induction m with
  | nil => simp [mapSet, mapGet, hne]
  | cons p rest ih =>
    obtain ⟨k1, v1⟩ := p
    unfold mapSet
    split_ifs with h1 h2
    · have hne1 : k2 ≠ k1 := h1 ▸ hne
      simp [mapGet, hne, hne1]
    · simp [mapGet, hne]
    · simp [mapGet, ih]

theorem decodeMembers_strict {F : Type} (PF : GoString → Option F) :
    ∀ (ms : List (GoString × JSON)) (acc m : List (GoString × GoVal F)),
      StrictKeys acc → decodeMembers PF ms acc = some m → StrictKeys m
  | [], acc, m, hacc, h => by
    simp only [decodeMembers, Option.some.injEq] at h
    exact h ▸ hacc
  | (k, j) :: rest, acc, m, hacc, h => by
    simp only [decodeMembers] at h
    split at h
    · rename_i v hv
      exact decodeMembers_strict PF rest (mapSet k v acc) m (mapSet_strict k v acc hacc) h
    · simp at h

theorem decodeMembers_get_other {F : Type} (PF : GoString → Option F) (k : GoString) :
    ∀ (ms : List (GoString × JSON)) (acc m : List (GoString × GoVal F)),
      k ∉ keysOf ms → decodeMembers PF ms acc = some m → mapGet k m = mapGet k acc
  | [], acc, m, _, h => by
    simp only [decodeMembers, Option.some.injEq] at h
    rw [h]
  | (k1, j) :: rest, acc, m, hk, h => by
    simp only [decodeMembers] at h
    simp only [keysOf, List.map_cons, List.mem_cons, not_or] at hk
    split at h
    · rename_i v hv
      rw [decodeMembers_get_other PF k rest (mapSet k1 v acc) m hk.2 h]
      exact mapGet_mapSet_other k1 k v acc hk.1
    · simp at h

theorem decodeMembers_keys {F : Type} (PF : GoString → Option F) (k : GoString) :
    ∀ (ms : List (GoString × JSON)) (acc m : List (GoString × GoVal F)),
      decodeMembers PF ms acc = some m → k ∈ keysOf m → k ∈ keysOf acc ∨ k ∈ keysOf ms
  | [], acc, m, h, hk => by
    simp only [decodeMembers, Option.some.injEq] at h
    exact Or.inl (h ▸ hk)
  | (k1, j) :: rest, acc, m, h, hk => by
    simp only [decodeMembers] at h
    split at h
    · rename_i v hv
      simp only [keysOf, List.map_cons, List.mem_cons]
      rcases decodeMembers_keys PF k rest (mapSet k1 v acc) m h hk with h1 | h1
      · rcases mem_keysOf_mapSet k1 v acc k h1 with h2 | h2
        · exact Or.inr (Or.inl h2)
        · exact Or.inl h2
      · exact Or.inr (Or.inr h1)
    · simp at h

theorem keysOf_encodeMembers {F : Type} (FF : F → GoString) :
    ∀ m : List (GoString × GoVal F), keysOf (encodeMembers FF m) = keysOf m
  | [] => by simp [encodeMembers, keysOf]
  | (k, v) :: rest => by
    have ih := keysOf_encodeMembers FF rest
    simp only [keysOf] at ih
    simp [encodeMembers, keysOf, ih]

theorem lookupLast_none (k : GoString) :
    ∀ ns : List (GoString × JSON), k ∉ keysOf ns → lookupLast k ns = none
  | [], _ => rfl
  | (k1, a) :: rest, hk => by
    simp only [keysOf, List.map_cons, List.mem_cons, not_or] at hk
    simp [lookupLast, lookupLast_none k rest hk.2, hk.1]

theorem lookupLast_encodeMembers {F : Type} (FF : F → GoString) (k : GoString) (v : GoVal F) :
    ∀ m : List (GoString × GoVal F), StrictKeys m → mapGet k m = some v →
      lookupLast k (encodeMembers FF m) = some (encodeAny FF v)
  | [], _, h => by simp [mapGet] at h
  | (k1, v1) :: rest, hm, h => by
    simp only [StrictKeys] at hm
    simp only [mapGet] at h
    simp only [encodeMembers, lookupLast]
    split_ifs at h with h1
    · simp only [Option.some.injEq] at h
      have hnot : k ∉ keysOf (encodeMembers FF rest) := by
        rw [keysOf_encodeMembers]
        intro hmem
        exact absurd (hm.1 k hmem) (h1 ▸ lt_irrefl k)
      rw [lookupLast_none k _ hnot]
      simp [h1, h]
    · rw [lookupLast_encodeMembers FF k v rest hm.2 h]

mutual
theorem semEq_decodeAny {F : Type} (PF : GoString → Option F) (FF : F → GoString)
    (NumEq : GoString → GoString → Prop) :
    ∀ (j : JSON) (v : GoVal F), NumbersExact PF FF NumEq j → decodeAny PF j = some v →
      SemEq NumEq j (encodeAny FF v)
  | JSON.null, v, _, h => by
    simp only [decodeAny, Option.some.injEq] at h
    subst h
    simp [encodeAny, SemEq]
  | JSON.bool _, v, _, h => by
    simp only [decodeAny, Option.some.injEq] at h
    subst h
    simp [encodeAny, SemEq]
  | JSON.number lit, v, hn, h => by
    simp only [NumbersExact] at hn
    obtain ⟨f, hf, heq⟩ := hn
    simp only [decodeAny, hf, Option.map_some', Option.some.injEq] at h
    subst h
    simp only [encodeAny, SemEq]
    exact heq
  | JSON.string _, v, _, h => by
    simp only [decodeAny, Option.some.injEq] at h
    subst h
    simp [encodeAny, SemEq]
  | JSON.array elems, v, hn, h => by
    simp only [NumbersExact] at hn
    simp only [decodeAny, Option.map_eq_some'] at h
    obtain ⟨vs, hvs, hv⟩ := h
    subst hv
    simp only [encodeAny, SemEq]
    exact semEq_decodeElems PF FF NumEq elems vs hn hvs
  | JSON.object members, v, hn, h => by
    simp only [NumbersExact] at hn
    simp only [decodeAny, Option.map_eq_some'] at h
    obtain ⟨m, hm, hv⟩ := h
    subst hv
    simp only [encodeAny, SemEq]
    refine ⟨semEq_decodeMembers PF FF NumEq members [] m hn (by simp [StrictKeys]) hm, ?_⟩
    intro k hk
    rw [keysOf_encodeMembers] at hk
    rcases decodeMembers_keys PF k members [] m hm hk with h1 | h1
    · simp [keysOf] at h1
    · exact h1
theorem semEq_decodeElems {F : Type} (PF : GoString → Option F) (FF : F → GoString)
    (NumEq : GoString → GoString → Prop) :
    ∀ (js : List JSON) (vs : List (GoVal F)), NumbersExactElems PF FF NumEq js →
      decodeElems PF js = some vs → SemEqElems NumEq js (encodeElems FF vs)
  | [], vs, _, h => by
    simp only [decodeElems, Option.some.injEq] at h
    subst h
    simp [encodeElems, SemEqElems]
  | j :: rest, vs, hn, h => by
    simp only [NumbersExactElems] at hn
    simp only [decodeElems] at h
    split at h
    · rename_i v vs1 hv hvs1
      simp only [Option.some.injEq] at h
      subst h
      simp only [encodeElems, SemEqElems]
      exact ⟨semEq_decodeAny PF FF NumEq j v hn.1 hv,
        semEq_decodeElems PF FF NumEq rest vs1 hn.2 hvs1⟩
    · simp at h
theorem semEq_decodeMembers {F : Type} (PF : GoString → Option F) (FF : F → GoString)
    (NumEq : GoString → GoString → Prop) :
    ∀ (ms : List (GoString × JSON)) (acc m : List (GoString × GoVal F)),
      NumbersExactMembers PF FF NumEq ms → StrictKeys acc →
      decodeMembers PF ms acc = some m → SemEqMembers NumEq ms (encodeMembers FF m)
  | [], _, _, _, _, _ => by simp [SemEqMembers]
  | (k, a) :: rest, acc, m, hn, hacc, h => by
    simp only [NumbersExactMembers] at hn
    simp only [decodeMembers] at h
    split at h
    · rename_i v hv
      simp only [SemEqMembers]
      refine ⟨?_, semEq_decodeMembers PF FF NumEq rest (mapSet k v acc) m hn.2
        (mapSet_strict k v acc hacc) h⟩
      by_cases hk : k ∈ keysOf rest
      · exact Or.inl hk
      · refine Or.inr ⟨encodeAny FF v, ?_, semEq_decodeAny PF FF NumEq a v hn.1 hv⟩
        have hstrict : StrictKeys m :=
          decodeMembers_strict PF rest (mapSet k v acc) m (mapSet_strict k v acc hacc) h
        have hget : mapGet k m = some v := by
          rw [decodeMembers_get_other PF k rest (mapSet k v acc) m hk h]
          exact mapGet_mapSet_self k v acc
        exact lookupLast_encodeMembers FF k v m hstrict hget
    · simp at h
end

mutual
theorem numbersExact_fit {F : Type} (PF : GoString → Option F) (FF : F → GoString)
    (NumEq : GoString → GoString → Prop) :
    ∀ j : JSON, NumbersExact PF FF NumEq j → NumbersFit PF j
  | JSON.null, _ => by simp [NumbersFit]
  | JSON.bool _, _ => by simp [NumbersFit]
  | JSON.number lit, h => by
    simp only [NumbersExact] at h
    obtain ⟨f, hf, _⟩ := h
    simp only [NumbersFit]
    exact ⟨f, hf⟩
  | JSON.string _, _ => by simp [NumbersFit]
  | JSON.array elems, h => by
    simp only [NumbersExact] at h
    simp only [NumbersFit]
    exact numbersExactElems_fit PF FF NumEq elems h
  | JSON.object members, h => by
    simp only [NumbersExact] at h
    simp only [NumbersFit]
    exact numbersExactMembers_fit PF FF NumEq members h
theorem numbersExactElems_fit {F : Type} (PF : GoString → Option F) (FF : F → GoString)
    (NumEq : GoString → GoString → Prop) :
    ∀ js : List JSON, NumbersExactElems PF FF NumEq js → NumbersFitElems PF js
  | [], _ => by simp [NumbersFitElems]
  | j :: rest, h => by
    simp only [NumbersExactElems] at h
    simp only [NumbersFitElems]
    exact ⟨numbersExact_fit PF FF NumEq j h.1, numbersExactElems_fit PF FF NumEq rest h.2⟩
theorem numbersExactMembers_fit {F : Type} (PF : GoString → Option F) (FF : F → GoString)
    (NumEq : GoString → GoString → Prop) :
    ∀ ms : List (GoString × JSON), NumbersExactMembers PF FF NumEq ms → NumbersFitMembers PF ms
  | [], _ => by simp [NumbersFitMembers]
  | (_, j) :: rest, h => by
    simp only [NumbersExactMembers] at h
    simp only [NumbersFitMembers]
    exact ⟨numbersExact_fit PF FF NumEq j h.1, numbersExactMembers_fit PF FF NumEq rest h.2⟩
end

mutual
theorem decodeAny_total {F : Type} (PF : GoString → Option F) :
    ∀ j : JSON, NumbersFit PF j → ∃ v, decodeAny PF j = some v
  | JSON.null, _ => ⟨_, rfl⟩
  | JSON.bool _, _ => ⟨_, rfl⟩
  | JSON.number lit, h => by
    simp only [NumbersFit] at h
    obtain ⟨f, hf⟩ := h
    exact ⟨GoVal.float64 f, by simp [decodeAny, hf]⟩
  | JSON.string _, _ => ⟨_, rfl⟩
  | JSON.array elems, h => by
    simp only [NumbersFit] at h
    obtain ⟨vs, hvs⟩ := decodeElems_total PF elems h
    exact ⟨GoVal.slice vs, by simp [decodeAny, hvs]⟩
  | JSON.object members, h => by
    simp only [NumbersFit] at h
    obtain ⟨m, hm⟩ := decodeMembers_total PF members h []
    exact ⟨GoVal.map m, by simp [decodeAny, hm]⟩
theorem decodeElems_total {F : Type} (PF : GoString → Option F) :
    ∀ js : List JSON, NumbersFitElems PF js → ∃ vs, decodeElems PF js = some vs
  | [], _ => ⟨[], rfl⟩
  | j :: rest, h => by
    simp only [NumbersFitElems] at h
    obtain ⟨v, hv⟩ := decodeAny_total PF j h.1
    obtain ⟨vs, hvs⟩ := decodeElems_total PF rest h.2
    exact ⟨v :: vs, by simp [decodeElems, hv, hvs]⟩
theorem decodeMembers_total {F : Type} (PF : GoString → Option F) :
    ∀ ms : List (GoString × JSON), NumbersFitMembers PF ms →
      ∀ acc : List (GoString × GoVal F), ∃ m, decodeMembers PF ms acc = some m
  | [], _, acc => ⟨acc, rfl⟩
  | (k, j) :: rest, h, acc => by
    simp only [NumbersFitMembers] at h
    obtain ⟨v, hv⟩ := decodeAny_total PF j h.1
    obtain ⟨m, hm⟩ := decodeMembers_total PF rest h.2 (mapSet k v acc)
    exact ⟨m, by simp [decodeMembers, hv, hm]⟩
end

end BaseApiClient
